import Mathlib

/-!
Shallow embedding of four subsystems of an off-chain batch-auction service:

* `InFlight`  — the in-flight order tracker (`crates/solver/src/in_flight_orders.rs`),
* `Mempools`  — the settlement submission engine (`crates/driver/src/domain/mempools.rs`),
* `PriceCache` — the native price cache
  (`crates/shared/src/price_estimation/native_price_cache.rs`),
* `Reconciler` — the settlement event reconciler
  (`crates/autopilot/src/on_settlement_event_updater.rs`),

together with theorems settling the specification claims about them.
Machine integers (`U256`, `u64`) are modelled as `Nat`: the Rust arithmetic in
the modelled paths either panics on overflow (`primitive_types::U256` addition)
or operates on `BigUint`, so every non-panicking execution agrees with `Nat`
arithmetic.  Maps (`BTreeMap`, `HashMap`) are modelled as association lists with
set-level lookup semantics.
-/

/-- Decidable equality for `Except`, used by the derived instances below. -/
instance {ε α : Type} [DecidableEq ε] [DecidableEq α] : DecidableEq (Except ε α)
  | Except.ok a, Except.ok b =>
      if h : a = b then Decidable.isTrue (h ▸ rfl)
      else Decidable.isFalse fun hc => h (Except.ok.inj hc)
  | Except.ok _, Except.error _ => Decidable.isFalse fun hc => Except.noConfusion hc
  | Except.error _, Except.ok _ => Decidable.isFalse fun hc => Except.noConfusion hc
  | Except.error e, Except.error f =>
      if h : e = f then Decidable.isTrue (h ▸ rfl)
      else Decidable.isFalse fun hc => h (Except.error.inj hc)

namespace InFlight

/-- Order unique identifier (`model::order::OrderUid`, 56 bytes in Rust). -/
abbrev OrderUid := Nat

/-- `model::order::OrderKind`. -/
inductive OrderKind
  | sell
  | buy
deriving DecidableEq, Repr

/-- The fields of `model::order::OrderData` used by `in_flight_orders.rs`. -/
structure OrderData where
  sell_amount : Nat
  buy_amount : Nat
  kind : OrderKind
  partially_fillable : Bool
deriving DecidableEq, Repr

/-- The fields of `model::order::OrderMetadata` used by `in_flight_orders.rs`. -/
structure OrderMetadata where
  uid : OrderUid
  executed_buy_amount : Nat
  executed_sell_amount : Nat
  executed_sell_amount_before_fees : Nat
  executed_fee_amount : Nat
deriving DecidableEq, Repr

/-- `model::order::Order` restricted to the fields the tracker reads. -/
structure Order where
  data : OrderData
  metadata : OrderMetadata
deriving DecidableEq, Repr

/-- `crate::settlement::TradeExecution` (amounts in token atoms). -/
structure TradeExecution where
  sell_amount : Nat
  buy_amount : Nat
  fee_amount : Nat
deriving DecidableEq, Repr

/-- `PartiallyFilledOrder`: the snapshot of an order at submission time plus
the executions currently in flight for it. -/
structure PartiallyFilledOrder where
  order : Order
  in_flight_trades : List TradeExecution
deriving DecidableEq, Repr

/-- One step of the loop body in `PartiallyFilledOrder::order_with_remaining_amounts`:
adds a single trade's amounts to the `executed_*` counters. -/
def applyTrade (o : Order) (t : TradeExecution) : Order :=
  { o with metadata := { o.metadata with
      executed_buy_amount := o.metadata.executed_buy_amount + t.buy_amount,
      executed_sell_amount := o.metadata.executed_sell_amount + (t.sell_amount + t.fee_amount),
      executed_sell_amount_before_fees :=
        o.metadata.executed_sell_amount_before_fees + t.sell_amount,
      executed_fee_amount := o.metadata.executed_fee_amount + t.fee_amount } }

/-- `PartiallyFilledOrder::order_with_remaining_amounts`. -/
def order_with_remaining_amounts (p : PartiallyFilledOrder) : Order :=
  p.in_flight_trades.foldl applyTrade p.order

/-- `model::auction::Auction` restricted to the fields the tracker reads. -/
structure Auction where
  block : Nat
  latest_settlement_block : Nat
  orders : List Order
deriving DecidableEq, Repr

/-- `InFlightOrders`: `in_flight` maps a block number to the uids settled in
that block (`BTreeMap<u64, Vec<OrderUid>>`); `in_flight_trades` maps a uid to
its partial-fill snapshot (`HashMap<OrderUid, PartiallyFilledOrder>`). -/
structure InFlightOrders where
  in_flight : List (Nat × List OrderUid)
  in_flight_trades : List (OrderUid × PartiallyFilledOrder)
deriving DecidableEq, Repr

/-- The uid set drawn from an `in_flight` map (`uids` closure in
`update_and_filter`). -/
def uidsOf (m : List (Nat × List OrderUid)) : List OrderUid :=
  (m.map Prod.snd).flatten

/-- Association-list lookup standing for `HashMap::get`. -/
def lookupSnapshot (l : List (OrderUid × PartiallyFilledOrder)) (u : OrderUid) :
    Option PartiallyFilledOrder :=
  (l.find? fun kv => kv.fst == u).map Prod.snd

/-- The fill-or-kill branch of `update_and_filter`: mark the order fully
executed so the retain step drops it. -/
def markInFlight (o : Order) : Order :=
  { o with metadata := { o.metadata with
      executed_buy_amount := o.data.buy_amount,
      executed_sell_amount_before_fees := o.data.sell_amount } }

/-- The `for_each` body of `update_and_filter` applied to one auction order. -/
def adjustOrder (trades : List (OrderUid × PartiallyFilledOrder))
    (uids : List OrderUid) (o : Order) : Order :=
  if o.data.partially_fillable then
    match lookupSnapshot trades o.metadata.uid with
    | some p => order_with_remaining_amounts p
    | none => o
  else if uids.contains o.metadata.uid then markInFlight o
  else o

/-- The retain predicate of `update_and_filter`: an order survives iff its
remaining amount is strictly positive. -/
def retains (o : Order) : Bool :=
  match o.data.kind with
  | OrderKind.sell =>
      decide (o.metadata.executed_sell_amount_before_fees < o.data.sell_amount)
  | OrderKind.buy => decide (o.metadata.executed_buy_amount < o.data.buy_amount)

/-- `InFlightOrders::update_and_filter`.  Returns the updated tracker, the
updated auction and the set (as a list) of in-flight uids.  `split_off` on the
`BTreeMap` keeps exactly the keys `≥ latest_settlement_block + 1`, modelled by
a filter. -/
def update_and_filter (s : InFlightOrders) (a : Auction) :
    InFlightOrders × Auction × List OrderUid :=
  let in_flight := s.in_flight.filter fun kv =>
    decide (a.latest_settlement_block + 1 ≤ kv.fst)
  let uids := uidsOf in_flight
  let trades := s.in_flight_trades.filter fun kv => uids.contains kv.fst
  let new_orders := (a.orders.map (adjustOrder trades uids)).filter retains
  (⟨in_flight, trades⟩, { a with orders := new_orders }, uids)

/-- A settlement as consumed by `mark_settled_orders`: the list of
`(trade.order, trade_execution)` pairs, in trade order. -/
structure SettlementS where
  trades : List (Order × TradeExecution)
deriving Repr

/-- `in_flight.entry(block).or_default().extend(uids)`. -/
def addInFlight (block : Nat) (uids : List OrderUid) :
    List (Nat × List OrderUid) → List (Nat × List OrderUid)
  | [] => [(block, uids)]
  | (b, us) :: rest =>
      if b = block then (b, us ++ uids) :: rest
      else (b, us) :: addInFlight block uids rest

/-- `HashMap::insert` on the snapshot map. -/
def insertSnapshot (u : OrderUid) (p : PartiallyFilledOrder) :
    List (OrderUid × PartiallyFilledOrder) → List (OrderUid × PartiallyFilledOrder)
  | [] => [(u, p)]
  | (v, q) :: rest =>
      if v = u then (u, p) :: rest else (v, q) :: insertSnapshot u p rest

/-- `into_group_map_by(|(trade, _)| trade.order.metadata.uid)` followed by the
construction of `PartiallyFilledOrder { order: trades[0].0.order, .. }`: one
group per distinct uid, snapshot order taken from the group's first trade. -/
def groupSnapshots (l : List (Order × TradeExecution)) :
    List (OrderUid × PartiallyFilledOrder) :=
  ((l.map fun t => t.fst.metadata.uid).dedup).filterMap fun u =>
    match l.filter (fun t => t.fst.metadata.uid == u) with
    | [] => none
    | t :: ts => some (u, ⟨t.fst, (t :: ts).map Prod.snd⟩)

/-- `InFlightOrders::mark_settled_orders`. -/
def mark_settled_orders (s : InFlightOrders) (block : Nat) (settlement : SettlementS) :
    InFlightOrders :=
  let uids := settlement.trades.map fun t => t.fst.metadata.uid
  let pf := settlement.trades.filter fun t => t.fst.data.partially_fillable
  { in_flight := addInFlight block uids s.in_flight,
    in_flight_trades :=
      (groupSnapshots pf).foldl (fun m g => insertSnapshot g.fst g.snd m)
        s.in_flight_trades }

/-- A snapshot map entry is well formed when its key is the snapshot order's
uid and the snapshot order is partially fillable.  `mark_settled_orders` only
ever inserts such entries (it filters on `partially_fillable` and groups by the
order's uid), so this is an invariant of every reachable tracker state. -/
def SnapshotWF (kv : OrderUid × PartiallyFilledOrder) : Prop :=
  kv.snd.order.metadata.uid = kv.fst ∧ kv.snd.order.data.partially_fillable = true

instance (kv : OrderUid × PartiallyFilledOrder) : Decidable (SnapshotWF kv) :=
  inferInstanceAs (Decidable (_ ∧ _))

/-- Tracker well-formedness: every snapshot entry is well formed. -/
def WellFormed (s : InFlightOrders) : Prop :=
  ∀ kv ∈ s.in_flight_trades, SnapshotWF kv

instance (s : InFlightOrders) : Decidable (WellFormed s) :=
  List.decidableBAll _ _

/-- Sum of the sell amounts of a trade list. -/
def sumSell (ts : List TradeExecution) : Nat := (ts.map TradeExecution.sell_amount).sum

/-- Sum of the buy amounts of a trade list. -/
def sumBuy (ts : List TradeExecution) : Nat := (ts.map TradeExecution.buy_amount).sum

/-- Sum of the fee amounts of a trade list. -/
def sumFee (ts : List TradeExecution) : Nat := (ts.map TradeExecution.fee_amount).sum

/-- Specification-side description of partial-fill accounting, written from the
claim's words: increase `executed_buy_amount` by `dbuy`,
`executed_sell_amount_before_fees` by `dsell`, `executed_sell_amount` by
`dsell + dfee` and `executed_fee_amount` by `dfee`. -/
def specAddExecuted (o : Order) (dsell dbuy dfee : Nat) : Order :=
  { o with metadata := { o.metadata with
      executed_buy_amount := o.metadata.executed_buy_amount + dbuy,
      executed_sell_amount := o.metadata.executed_sell_amount + (dsell + dfee),
      executed_sell_amount_before_fees :=
        o.metadata.executed_sell_amount_before_fees + dsell,
      executed_fee_amount := o.metadata.executed_fee_amount + dfee } }

end InFlight

namespace Mempools

/-- `RevertProtection`. -/
inductive RevertProtection
  | enabled
  | disabled
deriving DecidableEq, Repr

/-- `infra::mempool::Kind`: a public mempool carries its own revert-protection
setting, a private (MEVBlocker-style) mempool does not. -/
inductive MempoolKindTag
  | publicKind (rp : RevertProtection)
  | privateKind
deriving DecidableEq, Repr

/-- The fields of a mempool configuration used by `mempools.rs`:
`config().kind` and `may_revert()`. -/
structure MempoolConfig where
  kind : MempoolKindTag
  may_revert : Bool
deriving DecidableEq, Repr

/-- `Mempools::revert_protection`: `Disabled` iff some configured mempool is
`Public` with revert protection `Disabled`. -/
def revert_protection (mempools : List MempoolConfig) : RevertProtection :=
  if mempools.any fun m =>
      match m.kind with
      | MempoolKindTag.publicKind RevertProtection.disabled => true
      | _ => false
  then RevertProtection.disabled
  else RevertProtection.enabled

/-- `eth::GasPrice` (`{max_fee_per_gas, max_priority_fee_per_gas}`), with the
fee components as exact rationals standing for the Rust numeric values. -/
structure GasPrice where
  max_fee_per_gas : ℚ
  max_priority_fee_per_gas : ℚ
deriving DecidableEq, Repr

/-- Modelled from the spec: the `eth::GasPrice` scalar multiplication used by
`Mempools::cancel` (`pending * GAS_PRICE_BUMP` with `GAS_PRICE_BUMP = 1.125`)
lives outside the provided sources; per the spec the cancellation gas price is
the pending price multiplied by `1.125 = 9/8`, component-wise. -/
def gasPriceBump (p : GasPrice) : GasPrice :=
  { max_fee_per_gas := p.max_fee_per_gas * (9 / 8 : ℚ),
    max_priority_fee_per_gas := p.max_priority_fee_per_gas * (9 / 8 : ℚ) }

/-- `competition::solution::settlement::Gas`. -/
structure Gas where
  estimate : Nat
  limit : Nat
  price : GasPrice
deriving DecidableEq, Repr

/-- `eth::Tx` restricted to the fields `mempools.rs` sets (addresses and byte
strings as `Nat` / `List Nat`). -/
structure Tx where
  tx_from : Nat
  tx_to : Nat
  value : Nat
  input : List Nat
  access_list : List Nat
deriving DecidableEq, Repr

/-- The fields of a `Settlement` read by `Mempools::submit`: the `revertable`
flag, the access list, and the gas plan.  `boundary_tx` is the transaction
produced by the external `settlement.boundary.tx(..)` helper (which does not
populate the access list). -/
structure Settlement where
  revertable : Bool
  access_list : List Nat
  gas : Gas
  boundary_tx : Tx
deriving DecidableEq, Repr

/-- `eth::TxStatus` as returned by `transaction_status`. -/
inductive TxStatusM
  | pending
  | executed
  | reverted
deriving DecidableEq, Repr

/-- Outcome of the `estimate_gas` re-simulation: success, an error classified
as a revert (`err.is_revert()`), or another error (logged and ignored). -/
inductive SimOutcome
  | simOk
  | simRevert
  | simOther
deriving DecidableEq, Repr

/-- One iteration of the monitoring loop: either the mempool deadline fired
before the next block (`timeout`), or a block arrived and the task observed a
transaction status (`none` models a `transaction_status` adapter error, which
the code treats as `Pending`) plus a re-simulation outcome. -/
inductive Tick
  | timeout
  | newBlock (status : Option TxStatusM) (sim : SimOutcome)
deriving DecidableEq, Repr

/-- The environment a single per-mempool submission task runs against:
the result of `mempool.submit` for the settlement transaction, the result of
`mempool.submit` for the cancellation transaction, and the monitoring ticks. -/
structure Env where
  submitResult : Except Nat Nat
  cancelResult : Except Nat Nat
  ticks : List Tick
deriving DecidableEq, Repr

/-- `mempools::Error`. -/
inductive SubmitError
  | revertError (hash : Nat)
  | simulationRevert
  | expired
  | disabled
  | otherError (msg : Nat)
deriving DecidableEq, Repr

/-- A submission observed on a mempool (`mempool.submit(tx, gas, solver)`). -/
inductive Action
  | submit (mempool : MempoolConfig) (tx : Tx) (gas : Gas)
deriving DecidableEq, Repr

/-- The cancellation transaction built by `Mempools::cancel`: a self-transfer
with zero value and empty input. -/
def cancellationTx (solver : Nat) : Tx :=
  { tx_from := solver, tx_to := solver, value := 0, input := [], access_list := [] }

/-- The cancellation gas plan: estimate and limit both
`CANCELLATION_GAS_AMOUNT = 21000`, price the pending price bumped by 1.125. -/
def cancellationGas (pending : GasPrice) : Gas :=
  { estimate := 21000, limit := 21000, price := gasPriceBump pending }

/-- `Mempools::cancel`: submit the cancellation through the given mempool;
a failed submission becomes `Error::Other`. -/
def cancel (mempool : MempoolConfig) (pending : GasPrice) (solver : Nat)
    (cancelRes : Except Nat Nat) : List Action × Except SubmitError Unit :=
  ([Action.submit mempool (cancellationTx solver) (cancellationGas pending)],
   match cancelRes with
   | Except.ok _ => Except.ok ()
   | Except.error e => Except.error (SubmitError.otherError e))

/-- The monitoring loop of `Mempools::submit`, driven by the tick list.
Returns the mempool submissions it performed and `some result` once the loop
returns (`none` if the tick list ran out while still pending). -/
def monitorLoop (mempool : MempoolConfig) (solver : Nat) (pending : GasPrice)
    (hash : Nat) (cancelRes : Except Nat Nat) : List Tick →
    List Action × Option (Except SubmitError Nat)
  | [] => ([], none)
  | Tick.timeout :: _ =>
      let c := cancel mempool pending solver cancelRes
      (c.fst, some (match c.snd with
        | Except.ok _ => Except.error SubmitError.expired
        | Except.error e => Except.error e))
  | Tick.newBlock status sim :: rest =>
      match status.getD TxStatusM.pending with
      | TxStatusM.executed => ([], some (Except.ok hash))
      | TxStatusM.reverted => ([], some (Except.error (SubmitError.revertError hash)))
      | TxStatusM.pending =>
          match sim with
          | SimOutcome.simRevert =>
              let c := cancel mempool pending solver cancelRes
              (c.fst, some (match c.snd with
                | Except.ok _ => Except.error SubmitError.simulationRevert
                | Except.error e => Except.error e))
          | _ => monitorLoop mempool solver pending hash cancelRes rest

/-- The settlement transaction built by `Mempools::submit`:
`Tx { access_list: settlement.access_list, ..settlement.boundary.tx(..) }`. -/
def settlementTx (settlement : Settlement) : Tx :=
  { settlement.boundary_tx with access_list := settlement.access_list }

/-- The per-mempool submission task of `Mempools::submit`: the revert
protection guard, the initial submission, then the monitoring loop. -/
def submitTask (mempools : List MempoolConfig) (mempool : MempoolConfig)
    (solver : Nat) (settlement : Settlement) (env : Env) :
    List Action × Option (Except SubmitError Nat) :=
  if settlement.revertable = true ∧ revert_protection mempools = RevertProtection.enabled
      ∧ mempool.may_revert = true then
    ([], some (Except.error SubmitError.disabled))
  else
    let tx := settlementTx settlement
    match env.submitResult with
    | Except.error e =>
        ([Action.submit mempool tx settlement.gas],
         some (Except.error (SubmitError.otherError e)))
    | Except.ok hash =>
        let m := monitorLoop mempool solver settlement.gas.price hash env.cancelResult env.ticks
        (Action.submit mempool tx settlement.gas :: m.fst, m.snd)

/-- A tick on which the monitoring loop keeps waiting: a block arrived, the
transaction is (treated as) pending, and the re-simulation did not report a
revert. -/
def continuesPending : Tick → Bool
  | Tick.timeout => false
  | Tick.newBlock status sim =>
      (match status.getD TxStatusM.pending with
       | TxStatusM.pending => true
       | _ => false)
      && (match sim with
          | SimOutcome.simRevert => false
          | _ => true)

end Mempools

namespace PriceCache

/-- Token addresses (`H160`). -/
abbrev Token := Nat

/-- `PriceEstimationError`. -/
inductive PriceEstimationError
  | noLiquidity
  | unsupportedToken
  | unsupportedOrderType
  | rateLimited
  | estimatorInternal
  | protocolInternal
deriving DecidableEq, Repr

/-- `CacheEntry = Result<f64, PriceEstimationError>`; the `f64` price is
modelled as an exact rational (no float arithmetic happens on cached values,
they are only stored and returned). -/
abbrev CacheEntry := Except PriceEstimationError ℚ

/-- `CachedResult`.  `Instant`s are `Nat` nanoseconds measured from the
platform's earliest representable `Instant`; `Duration`s are `Nat`. -/
structure CachedResult where
  result : CacheEntry
  updated_at : Nat
  requested_at : Nat
deriving DecidableEq, Repr

/-- The cache map (`HashMap<H160, CachedResult>`) as an association list. -/
abbrev Cache := List (Token × CachedResult)

/-- Association-list lookup standing for `HashMap` entry lookup. -/
def lookupEntry (c : Cache) (t : Token) : Option CachedResult :=
  (c.find? fun kv => kv.fst == t).map Prod.snd

/-- Association-list insert standing for `HashMap::insert` (replaces any
existing entry for the token). -/
def insertEntry (t : Token) (e : CachedResult) : Cache → Cache
  | [] => [(t, e)]
  | kv :: rest =>
      if kv.fst = t then (t, e) :: rest else kv :: insertEntry t e rest

/-- `Instant::checked_sub`: `none` when the subtrahend reaches before the
earliest representable `Instant`. -/
def checkedSub (now dur : Nat) : Option Nat :=
  if dur ≤ now then some (now - dur) else none

/-- `Inner::get_cached_price`.  Returns `none` for the `unwrap` panic on the
miss path; otherwise `some (price?, cache')` where `price?` is the fresh
cached result (if any) and `cache'` the updated map.  `saturating_duration_since`
is `Nat` truncated subtraction. -/
def get_cached_price (token : Token) (now : Nat) (cache : Cache) (max_age : Nat)
    (create_missing_entry : Bool) : Option (Option CacheEntry × Cache) :=
  match lookupEntry cache token with
  | some entry =>
      let entry' := { entry with requested_at := now }
      let is_recent := decide (now - entry'.updated_at < max_age)
      some (if is_recent then some entry'.result else none,
            insertEntry token entry' cache)
  | none =>
      if create_missing_entry then
        match checkedSub now max_age with
        | none => none
        | some outdated_timestamp =>
            some (none,
              insertEntry token
                { result := Except.ok 0, updated_at := outdated_timestamp,
                  requested_at := now } cache)
      else some (none, cache)

/-- `should_cache`: transient errors (and the unexpected
`UnsupportedOrderType`) are not cached. -/
def should_cache (result : CacheEntry) : Bool :=
  match result with
  | Except.ok _ => true
  | Except.error PriceEstimationError.noLiquidity => true
  | Except.error PriceEstimationError.unsupportedToken => true
  | Except.error PriceEstimationError.estimatorInternal => false
  | Except.error PriceEstimationError.protocolInternal => false
  | Except.error PriceEstimationError.rateLimited => false
  | Except.error PriceEstimationError.unsupportedOrderType => false

/-- One element of `Inner::estimate_prices_and_update_cache` for a single
token: re-check the cache (`create_missing_entry = false`, so the panic path
is unreachable); on a fresh hit return it, otherwise consult the backend
(`backend` is the result of `estimator.estimate_native_price(token)`), cache
it iff `should_cache`, and return it.  `now₁` and `now₂` are the two
`Instant::now()` readings. -/
def estimate_price_and_update_cache (token : Token) (now₁ now₂ : Nat)
    (cache : Cache) (max_age : Nat) (backend : CacheEntry) : CacheEntry × Cache :=
  match get_cached_price token now₁ cache max_age false with
  | some (some price, cache') => (price, cache')
  | some (none, cache') =>
      if should_cache backend then
        (backend, insertEntry token
          { result := backend, updated_at := now₂, requested_at := now₂ } cache')
      else (backend, cache')
  | none => (backend, cache)

/-- The `for token in tokens` loop of
`CachingNativePriceEstimator::get_cached_prices`: look each token up with
`create_missing_entry = true`, collecting only fresh results into the result
map; `none` models the `unwrap` panic propagating out of the call. -/
def get_cached_prices_loop (now max_age : Nat) :
    List Token → List (Token × CacheEntry) → Cache →
    Option (List (Token × CacheEntry) × Cache)
  | [], acc, cache => some (acc, cache)
  | t :: ts, acc, cache =>
      match get_cached_price t now cache max_age true with
      | none => none
      | some (some price, cache') =>
          get_cached_prices_loop now max_age ts (acc ++ [(t, price)]) cache'
      | some (none, cache') => get_cached_prices_loop now max_age ts acc cache'

/-- `CachingNativePriceEstimator::get_cached_prices`. -/
def get_cached_prices (tokens : List Token) (now : Nat) (max_age : Nat)
    (cache : Cache) : Option (List (Token × CacheEntry) × Cache) :=
  get_cached_prices_loop now max_age tokens [] cache

end PriceCache

namespace Reconciler

/-- A raw settlement event row (`get_settlement_without_auction`). -/
structure SettlementEvent where
  block_number : Nat
  log_index : Nat
  tx_hash : Nat
deriving DecidableEq, Repr

/-- Modelled from the spec: `DecodedSettlement` (the `decoded_settlement`
module is not among the provided sources).  Per the spec, decoding yields the
settlement payload plus optional trailing metadata of exactly 8 bytes; the
payload itself is opaque here. -/
structure Decoded where
  metadata : Option (List Nat)
  payload : Nat
deriving DecidableEq, Repr

/-- The fields of a `web3::types::Transaction` the updater reads: `from`
(optional sender) and the decode outcome of its `input` calldata
(`DecodedSettlement::new`). -/
structure TxModel where
  sender : Option Nat
  decoded : Except Unit Decoded
deriving DecidableEq, Repr

/-- A `settlement_scores` row restricted to the `winner` column. -/
structure ScoreRecord where
  winner : Nat
deriving DecidableEq, Repr

/-- `AuctionData` (the observation persisted with a settlement). -/
structure AuctionData where
  surplus : Nat
  fee : Nat
  gas_used : Nat
  effective_gas_price : Nat
deriving DecidableEq, Repr

/-- The environment one `update()` step runs against: the selected unresolved
event, the chain transaction lookup, the score and observation tables, and the
outcome of `fetch_auction_data` (which reads the receipt and auction prices
and can fail). -/
structure Db where
  event : Option SettlementEvent
  transaction : Nat → Option TxModel
  score : Int → Option ScoreRecord
  alreadyProcessed : Int → Bool
  fetchAuctionData : Int → Decoded → Except Unit AuctionData

/-- Modelled from the spec: `i64::from_be_bytes` over the 8 trailing metadata
bytes, big-endian two's complement. -/
def i64_from_be_bytes (bs : List Nat) : Int :=
  let n : Nat := bs.foldl (fun acc b => acc * 256 + b % 256) 0
  if n < 2 ^ 63 then (n : Int) else (n : Int) - 2 ^ 64

/-- `AuctionIdRecoveryStatus`. -/
inductive RecoveryStatus
  | addAuctionData (id : Int) (s : Decoded)
  | doNotAddAuctionData (id : Int)
  | invalidCalldata
deriving DecidableEq, Repr

/-- `OnSettlementEventUpdater::recover_auction_id_from_calldata`.  A missing
sender aborts with a retryable error; a decode failure or missing metadata is
`InvalidCalldata`; otherwise the recovered id is checked against the score and
observation tables exactly as the Rust `match (score, data_already_recorded)`. -/
def recover_auction_id_from_calldata (db : Db) (tx : TxModel) :
    Except Unit RecoveryStatus :=
  match tx.sender with
  | none => Except.error ()
  | some tx_from =>
      match tx.decoded with
      | Except.error _ => Except.ok RecoveryStatus.invalidCalldata
      | Except.ok settlement =>
          match settlement.metadata with
          | none => Except.ok RecoveryStatus.invalidCalldata
          | some bytes =>
              let auction_id := i64_from_be_bytes bytes
              match db.score auction_id with
              | none => Except.ok (RecoveryStatus.doNotAddAuctionData auction_id)
              | some score =>
                  if score.winner ≠ tx_from then
                    Except.ok (RecoveryStatus.doNotAddAuctionData auction_id)
                  else if db.alreadyProcessed auction_id then
                    Except.ok (RecoveryStatus.doNotAddAuctionData auction_id)
                  else
                    Except.ok (RecoveryStatus.addAuctionData auction_id settlement)

/-- `SettlementUpdate`: what `update_settlement_details` persists. -/
structure SettlementUpdate where
  block_number : Nat
  log_index : Nat
  auction_id : Int
  auction_data : Option AuctionData
deriving DecidableEq, Repr

/-- `OnSettlementEventUpdater::update`: one step of the reconciler.  Returns
`(changed, persisted_row)`; DB/RPC failures surface as `Except.error` (the
transaction aborts, nothing is persisted). -/
def update (db : Db) : Except Unit (Bool × Option SettlementUpdate) :=
  match db.event with
  | none => Except.ok (false, none)
  | some event =>
      match db.transaction event.tx_hash with
      | none => Except.ok (false, none)
      | some tx =>
          match recover_auction_id_from_calldata db tx with
          | Except.error e => Except.error e
          | Except.ok RecoveryStatus.invalidCalldata =>
              Except.ok (true,
                some ⟨event.block_number, event.log_index, 0, none⟩)
          | Except.ok (RecoveryStatus.doNotAddAuctionData id) =>
              Except.ok (true,
                some ⟨event.block_number, event.log_index, id, none⟩)
          | Except.ok (RecoveryStatus.addAuctionData id s) =>
              match db.fetchAuctionData id s with
              | Except.error e => Except.error e
              | Except.ok ad =>
                  Except.ok (true,
                    some ⟨event.block_number, event.log_index, id, some ad⟩)

/-- Specification-side description of the persisted `(auction_id, observation)`
pair, written from the claim's words: decode failure or missing metadata gives
`(0, none)`; a recovered id with no score, a foreign winner, or an existing
observation gives `(id, none)`; otherwise `(id, some observation)`.  `none`
means the claim's case split does not apply (the observation fetch failed). -/
def specPersistedPair (db : Db) (tx : TxModel) (tx_from : Nat) :
    Option (Int × Option AuctionData) :=
  match tx.decoded with
  | Except.error _ => some (0, none)
  | Except.ok s =>
      match s.metadata with
      | none => some (0, none)
      | some bytes =>
          let id := i64_from_be_bytes bytes
          match db.score id with
          | none => some (id, none)
          | some sc =>
              if sc.winner ≠ tx_from then some (id, none)
              else if db.alreadyProcessed id then some (id, none)
              else
                match db.fetchAuctionData id s with
                | Except.ok ad => some (id, some ad)
                | Except.error _ => none

end Reconciler

namespace InFlight

lemma specAddExecuted_zero (o : Order) : specAddExecuted o 0 0 0 = o := by
  simp [specAddExecuted]

lemma applyTrade_eq (o : Order) (t : TradeExecution) :
    applyTrade o t = specAddExecuted o t.sell_amount t.buy_amount t.fee_amount := rfl

lemma specAddExecuted_add (o : Order) (a b c a' b' c' : Nat) :
    specAddExecuted (specAddExecuted o a b c) a' b' c'
      = specAddExecuted o (a + a') (b + b') (c + c') := by
  simp [specAddExecuted, Nat.add_assoc]
  omega

lemma foldl_applyTrade (ts : List TradeExecution) :
    ∀ o : Order,
      ts.foldl applyTrade o = specAddExecuted o (sumSell ts) (sumBuy ts) (sumFee ts) := by
  induction ts with
  | nil => intro o; simp [sumSell, sumBuy, sumFee, specAddExecuted_zero]
  | cons t ts ih =>
      intro o
      simp only [List.foldl_cons, ih, applyTrade_eq, specAddExecuted_add]
      simp [sumSell, sumBuy, sumFee]

lemma order_with_remaining_amounts_eq (p : PartiallyFilledOrder) :
    order_with_remaining_amounts p
      = specAddExecuted p.order (sumSell p.in_flight_trades)
          (sumBuy p.in_flight_trades) (sumFee p.in_flight_trades) :=
  foldl_applyTrade _ _

lemma specAddExecuted_data (o : Order) (a b c : Nat) :
    (specAddExecuted o a b c).data = o.data := rfl

lemma specAddExecuted_uid (o : Order) (a b c : Nat) :
    (specAddExecuted o a b c).metadata.uid = o.metadata.uid := rfl

lemma owra_data (p : PartiallyFilledOrder) :
    (order_with_remaining_amounts p).data = p.order.data := by
  rw [order_with_remaining_amounts_eq]; rfl

lemma owra_uid (p : PartiallyFilledOrder) :
    (order_with_remaining_amounts p).metadata.uid = p.order.metadata.uid := by
  rw [order_with_remaining_amounts_eq]; rfl

lemma lookupSnapshot_eq_some {trades : List (OrderUid × PartiallyFilledOrder)}
    {u : OrderUid} {p : PartiallyFilledOrder} (h : lookupSnapshot trades u = some p) :
    ∃ kv ∈ trades, kv.fst = u ∧ kv.snd = p := by
  unfold lookupSnapshot at h
  cases hf : trades.find? (fun kv => kv.fst == u) with
  | none => rw [hf] at h; simp at h
  | some kv =>
      rw [hf] at h
      have h2 : kv.snd = p := by simpa using h
      have hm := List.mem_of_find?_eq_some hf
      have hp := List.find?_some hf
      refine ⟨kv, hm, ?_, h2⟩
      simpa using hp

lemma retains_markInFlight (o : Order) : retains (markInFlight o) = false := by
  cases hk : o.data.kind <;> simp [retains, markInFlight, hk]

lemma mem_uidsOf {m : List (Nat × List OrderUid)} {u : OrderUid} :
    u ∈ uidsOf m ↔ ∃ kv ∈ m, u ∈ kv.snd := by
  simp only [uidsOf, List.mem_flatten, List.mem_map]
  constructor
  · rintro ⟨l, ⟨kv, hkv, rfl⟩, hu⟩
    exact ⟨kv, hkv, hu⟩
  · rintro ⟨kv, hkv, hu⟩
    exact ⟨kv.snd, ⟨kv, hkv, rfl⟩, hu⟩

lemma map_eq_self_of_mem {α : Type} {l : List α} {f : α → α}
    (h : ∀ x ∈ l, f x = x) : l.map f = l := by
  induction l with
  | nil => rfl
  | cons x xs ih =>
      simp only [List.map_cons, List.cons.injEq]
      exact ⟨h x (by simp), ih fun y hy => h y (by simp [hy])⟩

lemma wellFormed_empty : WellFormed ⟨[], []⟩ := by
  intro kv hkv
  simp at hkv

lemma wellFormed_update_and_filter {s : InFlightOrders} (a : Auction)
    (hwf : WellFormed s) : WellFormed (update_and_filter s a).fst := by
  intro kv hkv
  have : kv ∈ s.in_flight_trades := by
    simp only [update_and_filter] at hkv
    exact List.mem_of_mem_filter hkv
  exact hwf kv this

lemma mem_insertSnapshot {u : OrderUid} {p : PartiallyFilledOrder}
    {l : List (OrderUid × PartiallyFilledOrder)} {kv : OrderUid × PartiallyFilledOrder}
    (h : kv ∈ insertSnapshot u p l) : kv = (u, p) ∨ kv ∈ l := by
  induction l with
  | nil => simpa [insertSnapshot] using h
  | cons vq rest ih =>
      by_cases hv : vq.fst = u
      · rw [show vq = (vq.fst, vq.snd) from rfl] at h
        simp only [insertSnapshot, hv, if_pos rfl] at h
        rcases List.mem_cons.mp h with h1 | h1
        · exact Or.inl h1
        · exact Or.inr (List.mem_cons_of_mem _ h1)
      · rw [show vq = (vq.fst, vq.snd) from rfl] at h
        simp only [insertSnapshot, if_neg hv] at h
        rcases List.mem_cons.mp h with h1 | h1
        · exact Or.inr (by simp [h1])
        · rcases ih h1 with h2 | h2
          · exact Or.inl h2
          · exact Or.inr (List.mem_cons_of_mem _ h2)

lemma mem_foldl_insertSnapshot
    {groups : List (OrderUid × PartiallyFilledOrder)} :
    ∀ {m : List (OrderUid × PartiallyFilledOrder)} {kv : OrderUid × PartiallyFilledOrder},
      kv ∈ groups.foldl (fun m g => insertSnapshot g.fst g.snd m) m →
      kv ∈ m ∨ kv ∈ groups := by
  induction groups with
  | nil => intro m kv h; exact Or.inl h
  | cons g gs ih =>
      intro m kv h
      simp only [List.foldl_cons] at h
      rcases ih h with h1 | h1
      · rcases mem_insertSnapshot h1 with h2 | h2
        · exact Or.inr (by simp [h2])
        · exact Or.inl h2
      · exact Or.inr (List.mem_cons_of_mem _ h1)

lemma groupSnapshots_wf {l : List (Order × TradeExecution)}
    (hl : ∀ t ∈ l, t.fst.data.partially_fillable = true) :
    ∀ kv ∈ groupSnapshots l, SnapshotWF kv := by
  intro kv hkv
  simp only [groupSnapshots, List.mem_filterMap] at hkv
  obtain ⟨u, _, hmatch⟩ := hkv
  cases hfil : l.filter (fun t => t.fst.metadata.uid == u) with
  | nil => rw [hfil] at hmatch; simp at hmatch
  | cons t ts =>
      rw [hfil] at hmatch
      simp only [Option.some.injEq] at hmatch
      have ht : t ∈ l.filter (fun t => t.fst.metadata.uid == u) := by
        rw [hfil]; exact List.mem_cons_self _ _
      have htl : t ∈ l := List.mem_of_mem_filter ht
      have huid : t.fst.metadata.uid = u := by
        have := List.of_mem_filter ht
        simpa using this
      constructor
      · rw [← hmatch]; simpa using huid
      · rw [← hmatch]; simpa using hl t htl

lemma wellFormed_mark_settled_orders {s : InFlightOrders} (block : Nat)
    (st : SettlementS) (hwf : WellFormed s) :
    WellFormed (mark_settled_orders s block st) := by
  intro kv hkv
  simp only [mark_settled_orders] at hkv
  rcases mem_foldl_insertSnapshot hkv with h1 | h1
  · exact hwf kv h1
  · refine groupSnapshots_wf ?_ kv h1
    intro t ht
    have := List.of_mem_filter ht
    simpa using this

lemma wf_of_filter {trades : List (OrderUid × PartiallyFilledOrder)}
    {q : OrderUid × PartiallyFilledOrder → Bool}
    (hwf : ∀ kv ∈ trades, SnapshotWF kv) :
    ∀ kv ∈ trades.filter q, SnapshotWF kv :=
  fun kv hkv => hwf kv (List.mem_of_mem_filter hkv)

lemma lookupSnapshot_wf {trades : List (OrderUid × PartiallyFilledOrder)}
    {u : OrderUid} {p : PartiallyFilledOrder}
    (hwf : ∀ kv ∈ trades, SnapshotWF kv)
    (h : lookupSnapshot trades u = some p) :
    p.order.metadata.uid = u ∧ p.order.data.partially_fillable = true := by
  obtain ⟨kv, hm, hu, hp⟩ := lookupSnapshot_eq_some h
  have := hwf kv hm
  rw [← hp, ← hu]
  exact this

/-- Core fixed-point property: on an order that already survived one pass and
under snapshot well-formedness, `adjustOrder` is the identity. -/
lemma adjustOrder_fixed
    {trades : List (OrderUid × PartiallyFilledOrder)} {uids : List OrderUid}
    (hwf : ∀ kv ∈ trades, SnapshotWF kv) (o : Order)
    (hret : retains (adjustOrder trades uids o) = true) :
    adjustOrder trades uids (adjustOrder trades uids o) = adjustOrder trades uids o := by
  by_cases hpf : o.data.partially_fillable = true
  · cases hl : lookupSnapshot trades o.metadata.uid with
    | some p =>
        have hadj : adjustOrder trades uids o = order_with_remaining_amounts p := by
          simp [adjustOrder, hpf, hl]
        obtain ⟨huid, hppf⟩ := lookupSnapshot_wf hwf hl
        rw [hadj]
        have h1 : (order_with_remaining_amounts p).data.partially_fillable = true := by
          rw [owra_data]; exact hppf
        have h2 : lookupSnapshot trades (order_with_remaining_amounts p).metadata.uid
            = some p := by rw [owra_uid, huid, hl]
        simp [adjustOrder, h1, h2]
    | none =>
        have hadj : adjustOrder trades uids o = o := by simp [adjustOrder, hpf, hl]
        rw [hadj, hadj]
  · have hpf' : o.data.partially_fillable = false := by simpa using hpf
    by_cases hc : o.metadata.uid ∈ uids
    · have hadj : adjustOrder trades uids o = markInFlight o := by
        simp [adjustOrder, hpf', hc]
      rw [hadj] at hret
      rw [retains_markInFlight] at hret
      exact absurd hret (by simp)
    · have hadj : adjustOrder trades uids o = o := by
        simp [adjustOrder, hpf', hc]
      rw [hadj, hadj]

/-- The partially-fillable-with-snapshot branch of `adjustOrder`. -/
lemma adjustOrder_partial {trades : List (OrderUid × PartiallyFilledOrder)}
    {uids : List OrderUid} {o : Order} {p : PartiallyFilledOrder}
    (hpf : o.data.partially_fillable = true)
    (hlk : lookupSnapshot trades o.metadata.uid = some p) :
    adjustOrder trades uids o = order_with_remaining_amounts p := by
  simp [adjustOrder, hpf, hlk]

/-- A surviving output order that is fill-or-kill cannot carry an in-flight
uid: the fill-or-kill branch marks such orders fully executed and the retain
step drops them, and (by well-formedness) snapshot replacements are partially
fillable. -/
lemma adjust_output_not_fok
    {trades : List (OrderUid × PartiallyFilledOrder)} {uids : List OrderUid}
    (hwf : ∀ kv ∈ trades, SnapshotWF kv) {o₀ : Order}
    (hret : retains (adjustOrder trades uids o₀) = true)
    (hpf : (adjustOrder trades uids o₀).data.partially_fillable = false) :
    (adjustOrder trades uids o₀).metadata.uid ∉ uids := by
  by_cases h1 : o₀.data.partially_fillable = true
  · cases hl : lookupSnapshot trades o₀.metadata.uid with
    | some p =>
        have hadj : adjustOrder trades uids o₀ = order_with_remaining_amounts p := by
          simp [adjustOrder, h1, hl]
        obtain ⟨_, hppf⟩ := lookupSnapshot_wf hwf hl
        rw [hadj, owra_data] at hpf
        rw [hppf] at hpf
        exact absurd hpf (by simp)
    | none =>
        have hadj : adjustOrder trades uids o₀ = o₀ := by simp [adjustOrder, h1, hl]
        rw [hadj] at hpf
        rw [h1] at hpf
        exact absurd hpf (by simp)
  · have h1' : o₀.data.partially_fillable = false := by simpa using h1
    by_cases hc : o₀.metadata.uid ∈ uids
    · have hadj : adjustOrder trades uids o₀ = markInFlight o₀ := by
        simp [adjustOrder, h1', hc]
      rw [hadj, retains_markInFlight] at hret
      exact absurd hret (by simp)
    · have hadj : adjustOrder trades uids o₀ = o₀ := by simp [adjustOrder, h1', hc]
      rw [hadj]
      exact hc

/-- Claim C3: for every fill-or-kill (not partially fillable) order whose uid
is in flight — recorded under some block strictly greater than
`auction.latest_settlement_block` — `update_and_filter` removes that order
from `auction.orders`: no fill-or-kill order with that uid remains.  The
`WellFormed` hypothesis is an invariant of every reachable tracker state
(`wellFormed_empty`, `wellFormed_mark_settled_orders`,
`wellFormed_update_and_filter`). -/
theorem fill_or_kill_in_flight_removed (s : InFlightOrders) (a : Auction)
    (u : OrderUid) (hwf : WellFormed s)
    (hu : ∃ kv ∈ s.in_flight, a.latest_settlement_block < kv.fst ∧ u ∈ kv.snd) :
    ∀ o ∈ (update_and_filter s a).snd.fst.orders,
      o.data.partially_fillable = false → o.metadata.uid ≠ u := by
  intro o ho hpf
  simp only [update_and_filter] at ho
  obtain ⟨homem, hret⟩ := List.mem_filter.mp ho
  obtain ⟨o₀, _, hadj⟩ := List.mem_map.mp homem
  have hwf' : ∀ kv ∈ s.in_flight_trades.filter fun kv =>
      (uidsOf (s.in_flight.filter fun kv =>
        decide (a.latest_settlement_block + 1 ≤ kv.fst))).contains kv.fst,
      SnapshotWF kv := wf_of_filter hwf
  have hnot := adjust_output_not_fok hwf' (hadj ▸ hret) (hadj ▸ hpf)
  rw [hadj] at hnot
  intro hequ
  apply hnot
  rw [hequ, mem_uidsOf]
  obtain ⟨kv, hkv, hlt, hmem⟩ := hu
  refine ⟨kv, List.mem_filter.mpr ⟨hkv, ?_⟩, hmem⟩
  simpa using hlt

/-- Claim C3 witness: a concrete in-flight fill-or-kill order is removed. -/
theorem fill_or_kill_in_flight_removed_witness :
    WellFormed ⟨[(5, [1])], []⟩ ∧
    (∃ kv ∈ ([(5, [1])] : List (Nat × List OrderUid)), 0 < kv.fst ∧ 1 ∈ kv.snd) ∧
    ∀ o ∈ (update_and_filter ⟨[(5, [1])], []⟩
        ⟨6, 0, [⟨⟨100, 100, OrderKind.sell, false⟩, ⟨1, 0, 0, 0, 0⟩⟩]⟩).snd.fst.orders,
      o.data.partially_fillable = false → o.metadata.uid ≠ 1 :=
  ⟨by decide, ⟨(5, [1]), by decide, by decide, by decide⟩,
   fill_or_kill_in_flight_removed ⟨[(5, [1])], []⟩
     ⟨6, 0, [⟨⟨100, 100, OrderKind.sell, false⟩, ⟨1, 0, 0, 0, 0⟩⟩]⟩ 1
     (by decide) ⟨(5, [1]), by decide, by decide, by decide⟩⟩

/-- Claim C4: a partially fillable auction order with a surviving in-flight
trade snapshot is replaced by the snapshot's order with the snapshot trades'
sums added onto the `executed_*` counters (`executed_buy += Δbuy`,
`executed_sell_before_fees += Δsell`, `executed_sell += Δsell + Δfee`,
`executed_fee += Δfee`), and survives exactly the remaining-amount filter. -/
theorem partial_fill_accounting (s : InFlightOrders) (a : Auction) (o : Order)
    (p : PartiallyFilledOrder) (ho : o ∈ a.orders)
    (hpf : o.data.partially_fillable = true)
    (hlk : lookupSnapshot (update_and_filter s a).fst.in_flight_trades
      o.metadata.uid = some p)
    (hret : retains (order_with_remaining_amounts p) = true) :
    order_with_remaining_amounts p ∈ (update_and_filter s a).snd.fst.orders
      ∧ order_with_remaining_amounts p
          = specAddExecuted p.order (sumSell p.in_flight_trades)
              (sumBuy p.in_flight_trades) (sumFee p.in_flight_trades) := by
  constructor
  · simp only [update_and_filter] at hlk ⊢
    refine List.mem_filter.mpr ⟨List.mem_map.mpr ⟨o, ho, ?_⟩, hret⟩
    exact adjustOrder_partial hpf hlk
  · exact order_with_remaining_amounts_eq p

/-- Claim C4 witness: a concrete partially filled order is de-rated by the
in-flight trade sums. -/
theorem partial_fill_accounting_witness :
    (⟨⟨100, 100, OrderKind.sell, true⟩, ⟨2, 0, 0, 0, 0⟩⟩ : Order) ∈
        [(⟨⟨100, 100, OrderKind.sell, true⟩, ⟨2, 0, 0, 0, 0⟩⟩ : Order)] ∧
    (order_with_remaining_amounts ⟨⟨⟨100, 100, OrderKind.sell, true⟩, ⟨2, 0, 0, 0, 0⟩⟩,
          [⟨10, 10, 1⟩]⟩ ∈
        (update_and_filter
          ⟨[(5, [2])], [(2, ⟨⟨⟨100, 100, OrderKind.sell, true⟩, ⟨2, 0, 0, 0, 0⟩⟩,
            [⟨10, 10, 1⟩]⟩)]⟩
          ⟨6, 0, [⟨⟨100, 100, OrderKind.sell, true⟩, ⟨2, 0, 0, 0, 0⟩⟩]⟩).snd.fst.orders
      ∧ order_with_remaining_amounts ⟨⟨⟨100, 100, OrderKind.sell, true⟩, ⟨2, 0, 0, 0, 0⟩⟩,
          [⟨10, 10, 1⟩]⟩
          = specAddExecuted ⟨⟨100, 100, OrderKind.sell, true⟩, ⟨2, 0, 0, 0, 0⟩⟩
              (sumSell [⟨10, 10, 1⟩]) (sumBuy [⟨10, 10, 1⟩]) (sumFee [⟨10, 10, 1⟩])) :=
  ⟨by decide,
   partial_fill_accounting
     ⟨[(5, [2])], [(2, ⟨⟨⟨100, 100, OrderKind.sell, true⟩, ⟨2, 0, 0, 0, 0⟩⟩,
       [⟨10, 10, 1⟩]⟩)]⟩
     ⟨6, 0, [⟨⟨100, 100, OrderKind.sell, true⟩, ⟨2, 0, 0, 0, 0⟩⟩]⟩
     ⟨⟨100, 100, OrderKind.sell, true⟩, ⟨2, 0, 0, 0, 0⟩⟩
     ⟨⟨⟨100, 100, OrderKind.sell, true⟩, ⟨2, 0, 0, 0, 0⟩⟩, [⟨10, 10, 1⟩]⟩
     (by decide) (by decide) (by decide) (by decide)⟩

/-- Helper for idempotence: running the adjust-and-retain pipeline a second
time over an already filtered order list changes nothing. -/
lemma second_pass_eq (tr : List (OrderUid × PartiallyFilledOrder))
    (uids : List OrderUid) (hwf : ∀ kv ∈ tr, SnapshotWF kv) (orders : List Order) :
    (((orders.map (adjustOrder tr uids)).filter retains).map
        (adjustOrder tr uids)).filter retains
      = (orders.map (adjustOrder tr uids)).filter retains := by
  have hfix : ∀ o ∈ (orders.map (adjustOrder tr uids)).filter retains,
      adjustOrder tr uids o = o := by
    intro o ho
    obtain ⟨hm, hr⟩ := List.mem_filter.mp ho
    obtain ⟨o₀, _, rfl⟩ := List.mem_map.mp hm
    exact adjustOrder_fixed hwf o₀ hr
  rw [map_eq_self_of_mem hfix]
  exact List.filter_eq_self.mpr fun o ho => (List.mem_filter.mp ho).2

/-- Claim C9: invoking `update_and_filter` a second time on the tracker and
auction produced by a first invocation (same `latest_settlement_block`) yields
the same filtered order list.  The `WellFormed` hypothesis is an invariant of
every reachable tracker state. -/
theorem update_and_filter_idempotent (s : InFlightOrders) (a : Auction)
    (hwf : WellFormed s) :
    (update_and_filter (update_and_filter s a).fst
        (update_and_filter s a).snd.fst).snd.fst.orders
      = (update_and_filter s a).snd.fst.orders := by
  have e1 : (s.in_flight.filter fun kv =>
        decide (a.latest_settlement_block + 1 ≤ kv.fst)).filter
        (fun kv => decide (a.latest_settlement_block + 1 ≤ kv.fst))
      = s.in_flight.filter fun kv =>
          decide (a.latest_settlement_block + 1 ≤ kv.fst) := by
    rw [List.filter_eq_self]
    intro kv hkv
    exact (List.mem_filter.mp hkv).2
  have e3 : (s.in_flight_trades.filter fun kv =>
        (uidsOf (s.in_flight.filter fun kv =>
          decide (a.latest_settlement_block + 1 ≤ kv.fst))).contains kv.fst).filter
        (fun kv => (uidsOf (s.in_flight.filter fun kv =>
          decide (a.latest_settlement_block + 1 ≤ kv.fst))).contains kv.fst)
      = s.in_flight_trades.filter fun kv =>
          (uidsOf (s.in_flight.filter fun kv =>
            decide (a.latest_settlement_block + 1 ≤ kv.fst))).contains kv.fst := by
    rw [List.filter_eq_self]
    intro kv hkv
    exact (List.mem_filter.mp hkv).2
  simp only [update_and_filter]
  rw [e1, e3]
  exact second_pass_eq _ _ (wf_of_filter hwf) a.orders

/-- Claim C9 witness: a concrete tracker and auction on which the second pass
reproduces the first pass's order list. -/
theorem update_and_filter_idempotent_witness :
    WellFormed ⟨[(5, [1, 2])],
        [(2, ⟨⟨⟨100, 100, OrderKind.sell, true⟩, ⟨2, 0, 0, 0, 0⟩⟩, [⟨10, 10, 1⟩]⟩)]⟩ ∧
    (update_and_filter
        (update_and_filter
          ⟨[(5, [1, 2])],
            [(2, ⟨⟨⟨100, 100, OrderKind.sell, true⟩, ⟨2, 0, 0, 0, 0⟩⟩, [⟨10, 10, 1⟩]⟩)]⟩
          ⟨6, 0, [⟨⟨100, 100, OrderKind.sell, false⟩, ⟨1, 0, 0, 0, 0⟩⟩,
            ⟨⟨100, 100, OrderKind.sell, true⟩, ⟨2, 0, 0, 0, 0⟩⟩]⟩).fst
        (update_and_filter
          ⟨[(5, [1, 2])],
            [(2, ⟨⟨⟨100, 100, OrderKind.sell, true⟩, ⟨2, 0, 0, 0, 0⟩⟩, [⟨10, 10, 1⟩]⟩)]⟩
          ⟨6, 0, [⟨⟨100, 100, OrderKind.sell, false⟩, ⟨1, 0, 0, 0, 0⟩⟩,
            ⟨⟨100, 100, OrderKind.sell, true⟩, ⟨2, 0, 0, 0, 0⟩⟩]⟩).snd.fst).snd.fst.orders
      = (update_and_filter
          ⟨[(5, [1, 2])],
            [(2, ⟨⟨⟨100, 100, OrderKind.sell, true⟩, ⟨2, 0, 0, 0, 0⟩⟩, [⟨10, 10, 1⟩]⟩)]⟩
          ⟨6, 0, [⟨⟨100, 100, OrderKind.sell, false⟩, ⟨1, 0, 0, 0, 0⟩⟩,
            ⟨⟨100, 100, OrderKind.sell, true⟩, ⟨2, 0, 0, 0, 0⟩⟩]⟩).snd.fst.orders :=
  ⟨by decide,
   update_and_filter_idempotent
     ⟨[(5, [1, 2])],
       [(2, ⟨⟨⟨100, 100, OrderKind.sell, true⟩, ⟨2, 0, 0, 0, 0⟩⟩, [⟨10, 10, 1⟩]⟩)]⟩
     ⟨6, 0, [⟨⟨100, 100, OrderKind.sell, false⟩, ⟨1, 0, 0, 0, 0⟩⟩,
       ⟨⟨100, 100, OrderKind.sell, true⟩, ⟨2, 0, 0, 0, 0⟩⟩]⟩
     (by decide)⟩

end InFlight

namespace Mempools

/-- Claim C1: for a revertable settlement, a mempool that may revert, and a
mempool set whose revert protection is `Enabled`, the per-mempool submission
task returns `Err(Disabled)` with an empty submission trace — no submit call
reaches the mempool. -/
theorem submit_disabled_before_any_submission (mempools : List MempoolConfig)
    (mempool : MempoolConfig) (solver : Nat) (settlement : Settlement) (env : Env)
    (h1 : settlement.revertable = true)
    (h2 : revert_protection mempools = RevertProtection.enabled)
    (h3 : mempool.may_revert = true) :
    submitTask mempools mempool solver settlement env
      = ([], some (Except.error SubmitError.disabled)) := by
  simp [submitTask, h1, h2, h3]

/-- Claim C1 witness: a concrete revertable settlement on a revert-protected
configuration is refused before any submission. -/
theorem submit_disabled_before_any_submission_witness :
    (⟨true, [], ⟨1, 1, ⟨1, 1⟩⟩, ⟨0, 0, 0, [], []⟩⟩ : Settlement).revertable = true ∧
    revert_protection [⟨MempoolKindTag.publicKind RevertProtection.enabled, true⟩]
      = RevertProtection.enabled ∧
    (⟨MempoolKindTag.publicKind RevertProtection.enabled, true⟩ :
      MempoolConfig).may_revert = true ∧
    submitTask [⟨MempoolKindTag.publicKind RevertProtection.enabled, true⟩]
        ⟨MempoolKindTag.publicKind RevertProtection.enabled, true⟩ 3
        ⟨true, [], ⟨1, 1, ⟨1, 1⟩⟩, ⟨0, 0, 0, [], []⟩⟩
        ⟨Except.ok 1, Except.ok 2, []⟩
      = ([], some (Except.error SubmitError.disabled)) :=
  ⟨rfl, by decide, rfl,
   submit_disabled_before_any_submission
     [⟨MempoolKindTag.publicKind RevertProtection.enabled, true⟩]
     ⟨MempoolKindTag.publicKind RevertProtection.enabled, true⟩ 3
     ⟨true, [], ⟨1, 1, ⟨1, 1⟩⟩, ⟨0, 0, 0, [], []⟩⟩
     ⟨Except.ok 1, Except.ok 2, []⟩ rfl (by decide) rfl⟩

/-- The monitoring loop reaches the timeout after any run of pending,
non-reverting block ticks and then performs exactly the cancellation. -/
lemma monitorLoop_timeout (mempool : MempoolConfig) (solver : Nat)
    (pending : GasPrice) (hash : Nat) (cancelRes : Except Nat Nat) :
    ∀ (pre : List Tick), (∀ t ∈ pre, continuesPending t = true) →
      ∀ rest, monitorLoop mempool solver pending hash cancelRes
          (pre ++ Tick.timeout :: rest)
        = ((cancel mempool pending solver cancelRes).fst,
           some (match (cancel mempool pending solver cancelRes).snd with
             | Except.ok _ => Except.error SubmitError.expired
             | Except.error e => Except.error e)) := by
  intro pre
  induction pre with
  | nil => intro _ rest; rfl
  | cons t ts ih =>
      intro h rest
      have ht : continuesPending t = true := h t (by simp)
      have hts : ∀ t' ∈ ts, continuesPending t' = true :=
        fun t' ht' => h t' (by simp [ht'])
      cases t with
      | timeout => simp [continuesPending] at ht
      | newBlock status sim =>
          cases hgd : status.getD TxStatusM.pending with
          | executed => simp [continuesPending, hgd] at ht
          | reverted => simp [continuesPending, hgd] at ht
          | pending =>
              cases hsim : sim with
              | simRevert => simp [continuesPending, hgd, hsim] at ht
              | simOk =>
                  rw [List.cons_append]
                  simp only [monitorLoop, hgd]
                  exact ih hts rest
              | simOther =>
                  rw [List.cons_append]
                  simp only [monitorLoop, hgd]
                  exact ih hts rest

/-- Claim C7: when the deadline fires while the transaction is still pending,
the task submits — through the same mempool — a cancellation that is a
self-transfer from the solver to the solver with value 0, empty input, gas
estimate and limit both 21000, and gas price the pending settlement gas price
multiplied by 1.125; if that submission succeeds the task returns
`Err(Expired)`. -/
theorem deadline_cancellation_shape (mempools : List MempoolConfig)
    (mempool : MempoolConfig) (solver : Nat) (settlement : Settlement) (env : Env)
    (hash h2 : Nat) (pre rest : List Tick)
    (hguard : ¬(settlement.revertable = true
      ∧ revert_protection mempools = RevertProtection.enabled
      ∧ mempool.may_revert = true))
    (hsub : env.submitResult = Except.ok hash)
    (hcancel : env.cancelResult = Except.ok h2)
    (hticks : env.ticks = pre ++ Tick.timeout :: rest)
    (hpre : ∀ t ∈ pre, continuesPending t = true) :
    submitTask mempools mempool solver settlement env
      = ([Action.submit mempool (settlementTx settlement) settlement.gas,
          Action.submit mempool
            { tx_from := solver, tx_to := solver, value := 0, input := [],
              access_list := [] }
            { estimate := 21000, limit := 21000,
              price := gasPriceBump settlement.gas.price }],
         some (Except.error SubmitError.expired)) := by
  simp only [submitTask, if_neg hguard, hsub]
  rw [hticks, monitorLoop_timeout mempool solver settlement.gas.price hash
    env.cancelResult pre hpre rest]
  simp [cancel, hcancel, cancellationGas, cancellationTx]

/-- Claim C7 witness: a concrete pending-then-timeout run produces exactly the
no-op self-transfer cancellation and `Err(Expired)`. -/
theorem deadline_cancellation_shape_witness :
    ¬((⟨false, [], ⟨50, 60, ⟨8, 4⟩⟩, ⟨1, 2, 0, [], []⟩⟩ : Settlement).revertable = true
        ∧ revert_protection [⟨MempoolKindTag.publicKind RevertProtection.enabled, false⟩]
            = RevertProtection.enabled
        ∧ (⟨MempoolKindTag.publicKind RevertProtection.enabled, false⟩ :
            MempoolConfig).may_revert = true) ∧
    submitTask [⟨MempoolKindTag.publicKind RevertProtection.enabled, false⟩]
        ⟨MempoolKindTag.publicKind RevertProtection.enabled, false⟩ 3
        ⟨false, [], ⟨50, 60, ⟨8, 4⟩⟩, ⟨1, 2, 0, [], []⟩⟩
        ⟨Except.ok 11, Except.ok 12,
          [Tick.newBlock (some TxStatusM.pending) SimOutcome.simOk, Tick.timeout]⟩
      = ([Action.submit ⟨MempoolKindTag.publicKind RevertProtection.enabled, false⟩
            (settlementTx ⟨false, [], ⟨50, 60, ⟨8, 4⟩⟩, ⟨1, 2, 0, [], []⟩⟩)
            ⟨50, 60, ⟨8, 4⟩⟩,
          Action.submit ⟨MempoolKindTag.publicKind RevertProtection.enabled, false⟩
            ⟨3, 3, 0, [], []⟩
            ⟨21000, 21000, gasPriceBump ⟨8, 4⟩⟩],
         some (Except.error SubmitError.expired)) :=
  ⟨by decide,
   deadline_cancellation_shape
     [⟨MempoolKindTag.publicKind RevertProtection.enabled, false⟩]
     ⟨MempoolKindTag.publicKind RevertProtection.enabled, false⟩ 3
     ⟨false, [], ⟨50, 60, ⟨8, 4⟩⟩, ⟨1, 2, 0, [], []⟩⟩
     ⟨Except.ok 11, Except.ok 12,
       [Tick.newBlock (some TxStatusM.pending) SimOutcome.simOk, Tick.timeout]⟩
     11 12 [Tick.newBlock (some TxStatusM.pending) SimOutcome.simOk] []
     (by decide) rfl rfl rfl (by decide)⟩

/-- Claim C8 counterexample: deadline hit while pending, cancellation
submission fails (`mempool.submit` error 7) — the task returns
`Err(Other(7))`, not `Err(Expired)`: the `?` on `self.cancel(..)` propagates
the cancellation error. -/
theorem expired_on_cancel_failure_counterexample :
    (submitTask [⟨MempoolKindTag.publicKind RevertProtection.enabled, false⟩]
        ⟨MempoolKindTag.publicKind RevertProtection.enabled, false⟩ 3
        ⟨false, [], ⟨21000, 21000, ⟨8, 8⟩⟩, ⟨1, 2, 0, [], []⟩⟩
        ⟨Except.ok 11, Except.error 7, [Tick.timeout]⟩).snd
      = some (Except.error (SubmitError.otherError 7))
    ∧ (submitTask [⟨MempoolKindTag.publicKind RevertProtection.enabled, false⟩]
        ⟨MempoolKindTag.publicKind RevertProtection.enabled, false⟩ 3
        ⟨false, [], ⟨21000, 21000, ⟨8, 8⟩⟩, ⟨1, 2, 0, [], []⟩⟩
        ⟨Except.ok 11, Except.error 7, [Tick.timeout]⟩).snd
      ≠ some (Except.error SubmitError.expired) := by
  constructor
  · rfl
  · decide

/-- Claim C8 amended: when the deadline elapses while pending and the
cancellation submission fails with error `e`, the task returns the propagated
cancellation error `Err(Other(e))`; `Err(Expired)` is returned only when the
cancellation submission succeeds. -/
theorem cancel_failure_propagates (mempools : List MempoolConfig)
    (mempool : MempoolConfig) (solver : Nat) (settlement : Settlement) (env : Env)
    (hash e : Nat) (pre rest : List Tick)
    (hguard : ¬(settlement.revertable = true
      ∧ revert_protection mempools = RevertProtection.enabled
      ∧ mempool.may_revert = true))
    (hsub : env.submitResult = Except.ok hash)
    (hcancel : env.cancelResult = Except.error e)
    (hticks : env.ticks = pre ++ Tick.timeout :: rest)
    (hpre : ∀ t ∈ pre, continuesPending t = true) :
    (submitTask mempools mempool solver settlement env).snd
      = some (Except.error (SubmitError.otherError e)) := by
  simp only [submitTask, if_neg hguard, hsub]
  rw [hticks, monitorLoop_timeout mempool solver settlement.gas.price hash
    env.cancelResult pre hpre rest]
  simp [cancel, hcancel]

/-- Claim C8 amended witness: a concrete failing cancellation yields the
propagated `Err(Other(7))`. -/
theorem cancel_failure_propagates_witness :
    ¬((⟨false, [], ⟨21000, 21000, ⟨8, 8⟩⟩, ⟨1, 2, 0, [], []⟩⟩ : Settlement).revertable = true
        ∧ revert_protection [⟨MempoolKindTag.publicKind RevertProtection.enabled, false⟩]
            = RevertProtection.enabled
        ∧ (⟨MempoolKindTag.publicKind RevertProtection.enabled, false⟩ :
            MempoolConfig).may_revert = true) ∧
    (submitTask [⟨MempoolKindTag.publicKind RevertProtection.enabled, false⟩]
        ⟨MempoolKindTag.publicKind RevertProtection.enabled, false⟩ 3
        ⟨false, [], ⟨21000, 21000, ⟨8, 8⟩⟩, ⟨1, 2, 0, [], []⟩⟩
        ⟨Except.ok 11, Except.error 7, [Tick.timeout]⟩).snd
      = some (Except.error (SubmitError.otherError 7)) :=
  ⟨by decide,
   cancel_failure_propagates
     [⟨MempoolKindTag.publicKind RevertProtection.enabled, false⟩]
     ⟨MempoolKindTag.publicKind RevertProtection.enabled, false⟩ 3
     ⟨false, [], ⟨21000, 21000, ⟨8, 8⟩⟩, ⟨1, 2, 0, [], []⟩⟩
     ⟨Except.ok 11, Except.error 7, [Tick.timeout]⟩
     11 7 [] [] (by decide) rfl rfl rfl (by decide)⟩

end Mempools

namespace PriceCache

/-- Claim C5: once the backend is actually consulted for a token (the
pre-check found no fresh price), the backend result is returned unchanged, a
new cache entry is written iff the result is `Ok`, `NoLiquidity` or
`UnsupportedToken`, and for a token absent from the cache a non-cacheable
result leaves the cache literally unchanged. -/
theorem backend_result_caching (token : Token) (now₁ now₂ : Nat)
    (cache c₁ : Cache) (max_age : Nat) (backend : CacheEntry)
    (hmiss : get_cached_price token now₁ cache max_age false = some (none, c₁)) :
    (estimate_price_and_update_cache token now₁ now₂ cache max_age backend).fst
        = backend
    ∧ (estimate_price_and_update_cache token now₁ now₂ cache max_age backend).snd
        = (if should_cache backend then
            insertEntry token ⟨backend, now₂, now₂⟩ c₁ else c₁)
    ∧ (should_cache backend = true ↔
        ((∃ q, backend = Except.ok q)
          ∨ backend = Except.error PriceEstimationError.noLiquidity
          ∨ backend = Except.error PriceEstimationError.unsupportedToken))
    ∧ (lookupEntry cache token = none → should_cache backend = false →
        (estimate_price_and_update_cache token now₁ now₂ cache max_age backend).snd
          = cache) := by
  refine ⟨?_, ?_, ?_, ?_⟩
  · simp only [estimate_price_and_update_cache, hmiss]
    cases hsc : should_cache backend <;> simp [hsc]
  · simp only [estimate_price_and_update_cache, hmiss]
    cases hsc : should_cache backend <;> simp [hsc]
  · cases backend with
    | ok q => simp [should_cache]
    | error err => cases err <;> simp [should_cache]
  · intro hlk hns
    have hc : c₁ = cache := by
      have h2 := hmiss
      simp [get_cached_price, hlk] at h2
      exact h2.symm
    subst hc
    simp only [estimate_price_and_update_cache, hmiss, hns]
    simp

/-- Claim C5 witness: a rate-limited backend result is returned but leaves an
empty cache unchanged. -/
theorem backend_result_caching_witness :
    get_cached_price 0 5 [] 3 false = some (none, []) ∧
    ((estimate_price_and_update_cache 0 5 6 [] 3
          (Except.error PriceEstimationError.rateLimited)).fst
        = Except.error PriceEstimationError.rateLimited
      ∧ (estimate_price_and_update_cache 0 5 6 [] 3
          (Except.error PriceEstimationError.rateLimited)).snd
        = (if should_cache (Except.error PriceEstimationError.rateLimited) then
            insertEntry 0 ⟨Except.error PriceEstimationError.rateLimited, 6, 6⟩ []
          else [])
      ∧ (should_cache (Except.error PriceEstimationError.rateLimited) = true ↔
          ((∃ q, (Except.error PriceEstimationError.rateLimited : CacheEntry)
              = Except.ok q)
            ∨ (Except.error PriceEstimationError.rateLimited : CacheEntry)
                = Except.error PriceEstimationError.noLiquidity
            ∨ (Except.error PriceEstimationError.rateLimited : CacheEntry)
                = Except.error PriceEstimationError.unsupportedToken))
      ∧ (lookupEntry [] 0 = none →
          should_cache (Except.error PriceEstimationError.rateLimited) = false →
          (estimate_price_and_update_cache 0 5 6 [] 3
            (Except.error PriceEstimationError.rateLimited)).snd = [])) :=
  ⟨rfl, backend_result_caching 0 5 6 [] [] 3
    (Except.error PriceEstimationError.rateLimited) rfl⟩

/-- Claim C6: a `get_cached_prices` miss inserts the sentinel
`{result: Ok(0), updated_at: now − max_age, requested_at: now}` and omits the
token from the returned map; and any later lookup of an entry still carrying
the sentinel's result and `updated_at` (refreshes overwrite those, lookups
only bump `requested_at`) yields no price — the sentinel's `Ok(0)` is never
returned by either public getter. -/
theorem sentinel_insert_and_never_fresh (t : Token) (now max_age : Nat)
    (cache : Cache) (hmiss : lookupEntry cache t = none) (hrep : max_age ≤ now) :
    get_cached_prices [t] now max_age cache
      = some ([], insertEntry t ⟨Except.ok 0, now - max_age, now⟩ cache)
    ∧ ∀ (cache₂ : Cache) (e : CachedResult) (now' : Nat), now ≤ now' →
        e.result = Except.ok 0 → e.updated_at = now - max_age →
        lookupEntry cache₂ t = some e → ∀ create : Bool,
          get_cached_price t now' cache₂ max_age create
            = some (none, insertEntry t { e with requested_at := now' } cache₂) := by
  constructor
  · simp [get_cached_prices, get_cached_prices_loop, get_cached_price, hmiss,
      checkedSub, hrep]
  · intro cache₂ e now' hmono _ hupd hlk create
    have hstale : ¬(now' - e.updated_at < max_age) := by omega
    simp [get_cached_price, hlk, hstale]

/-- Claim C6 witness: at `now = 5`, `max_age = 3`, an empty cache receives the
sentinel and never serves it. -/
theorem sentinel_insert_and_never_fresh_witness :
    lookupEntry [] 0 = none ∧ 3 ≤ 5 ∧
    (get_cached_prices [0] 5 3 []
        = some ([], insertEntry 0 ⟨Except.ok 0, 5 - 3, 5⟩ [])
      ∧ ∀ (cache₂ : Cache) (e : CachedResult) (now' : Nat), 5 ≤ now' →
          e.result = Except.ok 0 → e.updated_at = 5 - 3 →
          lookupEntry cache₂ 0 = some e → ∀ create : Bool,
            get_cached_price 0 now' cache₂ 3 create
              = some (none, insertEntry 0 { e with requested_at := now' } cache₂)) :=
  ⟨rfl, by decide, sentinel_insert_and_never_fresh 0 5 3 [] rfl (by decide)⟩

lemma get_cached_price_isSome_of_le (t : Token) (now max_age : Nat) (c : Cache)
    (h : max_age ≤ now) : (get_cached_price t now c max_age true).isSome = true := by
  cases hlk : lookupEntry c t with
  | some e => simp [get_cached_price, hlk]
  | none => simp [get_cached_price, hlk, checkedSub, h]

lemma get_cached_prices_loop_isSome (now max_age : Nat) (h : max_age ≤ now) :
    ∀ (tokens : List Token) (acc : List (Token × CacheEntry)) (cache : Cache),
      (get_cached_prices_loop now max_age tokens acc cache).isSome = true := by
  intro tokens
  induction tokens with
  | nil => intro acc cache; rfl
  | cons t ts ih =>
      intro acc cache
      have hs := get_cached_price_isSome_of_le t now max_age cache h
      cases hg : get_cached_price t now cache max_age true with
      | none => rw [hg] at hs; simp at hs
      | some pr =>
          obtain ⟨fst, snd⟩ := pr
          cases fst with
          | some price => simp only [get_cached_prices_loop, hg]; exact ih _ _
          | none => simp only [get_cached_prices_loop, hg]; exact ih _ _

/-- Claim C10: `get_cached_prices` is total whenever `now` is at least
`max_age` from the earliest representable `Instant`, and with `max_age`
exceeding that distance a call with an uncached token panics
(`checked_sub(..).unwrap()` on the miss path, modelled as `none`) instead of
returning a map. -/
theorem get_cached_prices_totality :
    (∀ (tokens : List Token) (now max_age : Nat) (cache : Cache), max_age ≤ now →
        (get_cached_prices tokens now max_age cache).isSome = true)
    ∧ get_cached_prices [0] 0 1 [] = none := by
  constructor
  · intro tokens now max_age cache h
    exact get_cached_prices_loop_isSome now max_age h tokens [] cache
  · rfl

/-- Claim C10 witness: with `max_age ≤ now` the call returns a map. -/
theorem get_cached_prices_totality_witness :
    1 ≤ 5 ∧ (get_cached_prices [0] 5 1 []).isSome = true :=
  ⟨by decide, get_cached_prices_totality.left [0] 5 1 [] (by decide)⟩

end PriceCache

namespace Reconciler

/-- Claim C2: one successful `update()` step persists exactly the pair
described by the claim: `(0, no observation)` when the calldata fails to
decode or lacks trailing metadata; `(id, no observation)` when the recovered
id has no score, a foreign winner, or an already-recorded observation; and
`(id, observation)` otherwise — always keyed by the event's
`(block_number, log_index)`. -/
theorem update_persists_recovered_pair (db : Db) (ev : SettlementEvent)
    (tx : TxModel) (f : Nat) (pr : Int × Option AuctionData)
    (hev : db.event = some ev)
    (htx : db.transaction ev.tx_hash = some tx)
    (hsender : tx.sender = some f)
    (hpair : specPersistedPair db tx f = some pr) :
    update db
      = Except.ok (true, some ⟨ev.block_number, ev.log_index, pr.fst, pr.snd⟩) := by
  cases hdec : tx.decoded with
  | error u =>
      have hpr : pr = (0, none) := by
        simp only [specPersistedPair, hdec, Option.some.injEq] at hpair
        exact hpair.symm
      subst hpr
      simp [update, hev, htx, recover_auction_id_from_calldata, hsender, hdec]
  | ok s =>
      cases hmeta : s.metadata with
      | none =>
          have hpr : pr = (0, none) := by
            simp only [specPersistedPair, hdec, hmeta, Option.some.injEq] at hpair
            exact hpair.symm
          subst hpr
          simp [update, hev, htx, recover_auction_id_from_calldata, hsender, hdec,
            hmeta]
      | some bytes =>
          cases hsc : db.score (i64_from_be_bytes bytes) with
          | none =>
              have hpr : pr = (i64_from_be_bytes bytes, none) := by
                simp only [specPersistedPair, hdec, hmeta, hsc,
                  Option.some.injEq] at hpair
                exact hpair.symm
              subst hpr
              simp [update, hev, htx, recover_auction_id_from_calldata, hsender,
                hdec, hmeta, hsc]
          | some sc =>
              by_cases hw : sc.winner = f
              · cases hap : db.alreadyProcessed (i64_from_be_bytes bytes) with
                | true =>
                    have hpr : pr = (i64_from_be_bytes bytes, none) := by
                      simp only [specPersistedPair, hdec, hmeta, hsc, hw, hap,
                        Option.some.injEq] at hpair
                      simp at hpair
                      exact hpair.symm
                    subst hpr
                    simp [update, hev, htx, recover_auction_id_from_calldata,
                      hsender, hdec, hmeta, hsc, hw, hap]
                | false =>
                    cases hfd : db.fetchAuctionData (i64_from_be_bytes bytes) s with
                    | ok ad =>
                        have hpr : pr = (i64_from_be_bytes bytes, some ad) := by
                          simp only [specPersistedPair, hdec, hmeta, hsc, hw, hap,
                            hfd, Option.some.injEq] at hpair
                          simp at hpair
                          exact hpair.symm
                        subst hpr
                        simp [update, hev, htx, recover_auction_id_from_calldata,
                          hsender, hdec, hmeta, hsc, hw, hap, hfd]
                    | error e' =>
                        exfalso
                        simp only [specPersistedPair, hdec, hmeta, hsc, hw, hap,
                          hfd] at hpair
                        simp at hpair
              · have hpr : pr = (i64_from_be_bytes bytes, none) := by
                  simp only [specPersistedPair, hdec, hmeta, hsc,
                    Option.some.injEq] at hpair
                  simp [hw] at hpair
                  exact hpair.symm
                subst hpr
                simp [update, hev, htx, recover_auction_id_from_calldata, hsender,
                  hdec, hmeta, hsc, hw]

/-- Claim C2 witness: a concrete event whose calldata recovers auction id 7,
with a matching winner and no prior observation, persists
`(7, some observation)`. -/
theorem update_persists_recovered_pair_witness :
    (Db.mk (some ⟨10, 0, 99⟩)
        (fun _ => some ⟨some 7, Except.ok ⟨some [0, 0, 0, 0, 0, 0, 0, 7], 0⟩⟩)
        (fun i => if i = 7 then some ⟨7⟩ else none)
        (fun _ => false)
        (fun _ _ => Except.ok ⟨1, 2, 3, 4⟩)).event = some ⟨10, 0, 99⟩ ∧
    specPersistedPair
        (Db.mk (some ⟨10, 0, 99⟩)
          (fun _ => some ⟨some 7, Except.ok ⟨some [0, 0, 0, 0, 0, 0, 0, 7], 0⟩⟩)
          (fun i => if i = 7 then some ⟨7⟩ else none)
          (fun _ => false)
          (fun _ _ => Except.ok ⟨1, 2, 3, 4⟩))
        ⟨some 7, Except.ok ⟨some [0, 0, 0, 0, 0, 0, 0, 7], 0⟩⟩ 7
      = some (7, some ⟨1, 2, 3, 4⟩) ∧
    update
        (Db.mk (some ⟨10, 0, 99⟩)
          (fun _ => some ⟨some 7, Except.ok ⟨some [0, 0, 0, 0, 0, 0, 0, 7], 0⟩⟩)
          (fun i => if i = 7 then some ⟨7⟩ else none)
          (fun _ => false)
          (fun _ _ => Except.ok ⟨1, 2, 3, 4⟩))
      = Except.ok (true, some ⟨10, 0, (7 : Int), some ⟨1, 2, 3, 4⟩⟩) :=
  ⟨rfl, by decide,
   update_persists_recovered_pair
     (Db.mk (some ⟨10, 0, 99⟩)
       (fun _ => some ⟨some 7, Except.ok ⟨some [0, 0, 0, 0, 0, 0, 0, 7], 0⟩⟩)
       (fun i => if i = 7 then some ⟨7⟩ else none)
       (fun _ => false)
       (fun _ _ => Except.ok ⟨1, 2, 3, 4⟩))
     ⟨10, 0, 99⟩
     ⟨some 7, Except.ok ⟨some [0, 0, 0, 0, 0, 0, 0, 7], 0⟩⟩ 7
     (7, some ⟨1, 2, 3, 4⟩) rfl rfl rfl (by decide)⟩

end Reconciler
